import Mathlib

/-
Shallow embedding of the directed-graph class `Graphe<T>` from
src/Lab5/Graphe/src/main/Graphe.hpp (namespace labGrapheAlgorithmes).

The C++ class stores a fixed vertex count `m_nbSommets`, a vector of
labels `m_noms` and a vector of adjacency lists `m_listesAdj`
(std::vector of std::list of unsigned int).  Vertex ids are Nat here;
all stored ids are small, so machine-integer overflow never matters.

Mutating members (`nommer`, `ajouterArc`, `enleverArc`) are embedded as
functions returning the thrown error (if any) together with the state
of the object when control leaves the member: the C++ bodies perform
all validity checks before any mutation, so on the error path the
returned state is the input state.  Const members are embedded as pure
functions returning `Except`.

Error kinds follow the spec names: `InvalidVertex` for an
out-of-range vertex id, `DuplicateEdge` for `ajouterArc` on an
existing arc, `EdgeNotFound` for `enleverArc` on a missing arc.
-/

namespace LabGrapheAlgorithmes

/-- Error kinds raised by the graph operations, as named in the spec
(`InvalidVertex`, `DuplicateEdge`, `EdgeNotFound`). -/
inductive GErreur where
  | invalidVertex
  | duplicateEdge
  | edgeNotFound
  deriving DecidableEq, Repr

/-- The state of a `Graphe<T>` object: vertex count, label vector and
adjacency-list vector (Graphe.hpp, data members `m_nbSommets`,
`m_noms`, `m_listesAdj`). -/
structure Graphe (T : Type) where
  m_nbSommets : Nat
  m_noms : List T
  m_listesAdj : List (List Nat)
  deriving DecidableEq, Repr

/-- Embeds the constructor `Graphe<T>::Graphe(size_t)` (Graphe.hpp lines
13-17): it resizes `m_noms` and `m_listesAdj` to `m_nbSommets` slots;
`resize` default-constructs each label and makes each adjacency list
empty. -/
def Graphe.construct (T : Type) [Inhabited T] (p_nbSommets : Nat) : Graphe T :=
  { m_nbSommets := p_nbSommets
    m_noms := List.replicate p_nbSommets default
    m_listesAdj := List.replicate p_nbSommets [] }

namespace Graphe

variable {T : Type}

/-- Embeds `Graphe<T>::nommer` (Graphe.hpp lines 43-54): an explicit
range check throws for an out-of-range vertex, otherwise the label is
overwritten in place. -/
def nommer (g : Graphe T) (p_sommet : Nat) (p_nom : T) :
    Except GErreur Unit × Graphe T :=
  if p_sommet ≥ g.m_nbSommets then (Except.error GErreur.invalidVertex, g)
  else (Except.ok (), { g with m_noms := g.m_noms.set p_sommet p_nom })

/-- Embeds the const query `Graphe<T>::arcExiste` (Graphe.hpp lines
170-191): explicit range checks on both ids, then a linear `std::find`
over the adjacency list of the source, reported as membership. -/
def arcExiste (g : Graphe T) (p_source p_cible : Nat) : Except GErreur Bool :=
  if p_source ≥ g.m_nbSommets then Except.error GErreur.invalidVertex
  else if p_cible ≥ g.m_nbSommets then Except.error GErreur.invalidVertex
  else Except.ok ((g.m_listesAdj.getD p_source []).contains p_cible)

/-- Embeds `Graphe<T>::ajouterArc` (Graphe.hpp lines 70-98): explicit
range checks on both ids, then a duplicate-arc check via `arcExiste`,
then `push_back` of the target at the end of the adjacency list of the
source. -/
def ajouterArc (g : Graphe T) (p_source p_cible : Nat) :
    Except GErreur Unit × Graphe T :=
  if p_source ≥ g.m_nbSommets then (Except.error GErreur.invalidVertex, g)
  else if p_cible ≥ g.m_nbSommets then (Except.error GErreur.invalidVertex, g)
  else if (g.m_listesAdj.getD p_source []).contains p_cible then
    (Except.error GErreur.duplicateEdge, g)
  else
    (Except.ok (), { g with
      m_listesAdj :=
        g.m_listesAdj.set p_source ((g.m_listesAdj.getD p_source []) ++ [p_cible]) })

/-- Modelled from the spec: `Graphe<T>::enleverArc` (Graphe.hpp lines
114-131) performs no explicit range check; its only guard is the
contract macro `PRECONDITION(arcExiste(p_source, p_cible))`, and
`ContratException.h`, which defines the macro, is not under src.  The
spec maps contract macros to explicit validation raising a descriptive
error, so the embedding evaluates `arcExiste` as the macro does: its
internal range checks raise `InvalidVertex`, and a false precondition
(arc absent) raises `EdgeNotFound` as the spec names the failure.  The
body after the guard is embedded from the source: `std::find` of the
target in the adjacency list of the source, throw if absent, otherwise
`erase` of the single found entry (the first occurrence). -/
def enleverArc (g : Graphe T) (p_source p_cible : Nat) :
    Except GErreur Unit × Graphe T :=
  if p_source ≥ g.m_nbSommets then (Except.error GErreur.invalidVertex, g)
  else if p_cible ≥ g.m_nbSommets then (Except.error GErreur.invalidVertex, g)
  else if !((g.m_listesAdj.getD p_source []).contains p_cible) then
    (Except.error GErreur.edgeNotFound, g)
  else
    (Except.ok (), { g with
      m_listesAdj :=
        g.m_listesAdj.set p_source ((g.m_listesAdj.getD p_source []).erase p_cible) })

/-- Embeds the const query `Graphe<T>::reqNom` (Graphe.hpp lines
146-156): range check, then return a copy of the label. -/
def reqNom [Inhabited T] (g : Graphe T) (p_sommet : Nat) : Except GErreur T :=
  if p_sommet ≥ g.m_nbSommets then Except.error GErreur.invalidVertex
  else Except.ok (g.m_noms.getD p_sommet default)

/-- Embeds `Graphe<T>::reqNbSommets` (Graphe.hpp lines 201-204). -/
def reqNbSommets (g : Graphe T) : Nat :=
  g.m_nbSommets

/-- Embeds the const query `Graphe<T>::listerSommetsAdjacents`
(Graphe.hpp lines 240-256): range check, then the adjacency list of
the vertex is copied in order into a vector. -/
def listerSommetsAdjacents (g : Graphe T) (p_sommet : Nat) :
    Except GErreur (List Nat) :=
  if p_sommet ≥ g.m_nbSommets then Except.error GErreur.invalidVertex
  else Except.ok (g.m_listesAdj.getD p_sommet [])

/-- The double loop inside `Graphe<T>::ordreEntreeSommet` (Graphe.hpp
lines 280-288): for every vertex index `i` below `m_nbSommets`, count
the occurrences of the queried vertex in `m_listesAdj[i]`. -/
def compteArcsEntrants (g : Graphe T) (p_sommet : Nat) : Nat :=
  ((List.range g.m_nbSommets).map
    (fun i => (g.m_listesAdj.getD i []).count p_sommet)).sum

/-- Embeds the const query `Graphe<T>::ordreEntreeSommet` (Graphe.hpp
lines 270-291): range check, then the incoming-arc count computed by
scanning every adjacency list. -/
def ordreEntreeSommet (g : Graphe T) (p_sommet : Nat) : Except GErreur Nat :=
  if p_sommet ≥ g.m_nbSommets then Except.error GErreur.invalidVertex
  else Except.ok (compteArcsEntrants g p_sommet)

/-- Embeds the const query `Graphe<T>::ordreSortieSommet` (Graphe.hpp
lines 305-316): range check, then the size of the adjacency list of
the vertex. -/
def ordreSortieSommet (g : Graphe T) (p_sommet : Nat) : Except GErreur Nat :=
  if p_sommet ≥ g.m_nbSommets then Except.error GErreur.invalidVertex
  else Except.ok (g.m_listesAdj.getD p_sommet []).length

/-- The class invariant checked by `Graphe<T>::verifieInvariant`
(Graphe.hpp lines 319-323): both vectors have exactly `m_nbSommets`
entries. -/
def invariantOk (g : Graphe T) : Prop :=
  g.m_noms.length = g.m_nbSommets ∧ g.m_listesAdj.length = g.m_nbSommets

/-- Every id stored in any adjacency list is a valid vertex id. -/
def arcsValides (g : Graphe T) : Prop :=
  ∀ i x, x ∈ g.m_listesAdj.getD i [] → x < g.m_nbSommets

/-- Sum of the out-degrees returned by `ordreSortieSommet` over all
valid vertex ids. -/
def sommeOrdresSortie (g : Graphe T) : Nat :=
  ((List.range g.m_nbSommets).map
    (fun v => (g.m_listesAdj.getD v []).length)).sum

/-- Sum of the in-degrees returned by `ordreEntreeSommet` over all
valid vertex ids. -/
def sommeOrdresEntree (g : Graphe T) : Nat :=
  ((List.range g.m_nbSommets).map (fun v => compteArcsEntrants g v)).sum

/-- Total number of arcs stored in the graph. -/
def nbArcs (g : Graphe T) : Nat :=
  (g.m_listesAdj.map List.length).sum

/-- Modelled from the spec: the loop of the depth-first traversal.  The
body of `Graphe<T>::parcoursProfondeur` (Graphe.hpp lines 342-344) is
empty in the source, so the algorithm is taken from the spec: while
the stack is non-empty pop a vertex; if unvisited, mark it visited,
record it and push its unvisited neighbours (insertion-order neighbour
expansion, the default the spec assumes).  A fuel argument bounds the
loop; the caller passes more fuel than the loop can consume. -/
def parcoursProfondeurRec (g : Graphe T) :
    Nat → List Nat → List Nat → List Nat
  | 0, _, _ => []
  | _ + 1, [], _ => []
  | fuel + 1, v :: pile, visites =>
    if visites.contains v then parcoursProfondeurRec g fuel pile visites
    else
      v :: parcoursProfondeurRec g fuel
        (((g.m_listesAdj.getD v []).filter (fun w => !visites.contains w)) ++ pile)
        (v :: visites)

/-- Modelled from the spec: `depthFirstTraversal(start)` fails with
`InvalidVertex` if `start` is out of range, and otherwise visits the
reachable vertices in depth-first order starting at `start`, each
visited once, using an explicit stack.  The source declares
`Graphe<T>::parcoursProfondeur` with this contract in its doc comment
but leaves the body empty. -/
def parcoursProfondeur (g : Graphe T) (p_debut : Nat) :
    Except GErreur (List Nat) :=
  if p_debut ≥ g.m_nbSommets then Except.error GErreur.invalidVertex
  else Except.ok (parcoursProfondeurRec g (g.m_nbSommets + g.nbArcs + 1) [p_debut] [])

end Graphe

/-- The example graph of the spec: 4 vertices and the arcs (0,1), (1,2)
and (2,3), built through the embedded operations. -/
def grapheExemple : Graphe Nat :=
  ((((Graphe.construct Nat 4).ajouterArc 0 1).2.ajouterArc 1 2).2.ajouterArc 2 3).2

/-- The graph states reachable from a constructed graph through the
mutating operations (the const queries do not change the state). -/
inductive Accessible {T : Type} [Inhabited T] : Graphe T → Prop where
  | construct (n : Nat) : Accessible (Graphe.construct T n)
  | nommer {g : Graphe T} (s : Nat) (x : T) :
      Accessible g → Accessible (Graphe.nommer g s x).2
  | ajouterArc {g : Graphe T} (s t : Nat) :
      Accessible g → Accessible (Graphe.ajouterArc g s t).2
  | enleverArc {g : Graphe T} (s t : Nat) :
      Accessible g → Accessible (Graphe.enleverArc g s t).2

/-- The example graph holds exactly the three arcs added. -/
lemma grapheExemple_listesAdj : grapheExemple.m_listesAdj = [[1], [2], [3], []] := by
  decide

namespace Graphe

variable {T : Type}

lemma getD_set_self (l : List α) (i : Nat) (h : i < l.length) (a d : α) :
    (l.set i a).getD i d = a := by
  simp [List.getD_eq_getElem?_getD, List.getElem?_set_self, h]

lemma getD_set_ne (l : List α) {i j : Nat} (h : i ≠ j) (a d : α) :
    (l.set i a).getD j d = l.getD j d := by
  simp [List.getD_eq_getElem?_getD, List.getElem?_set_ne, h]

end Graphe

/-- C2.  Whenever one of the mutating operations fails, the graph state
after the call is the state before it: no label and no adjacency list
is modified.  The query operations (`reqNom`, `arcExiste`,
`listerSommetsAdjacents`, `ordreEntreeSommet`, `ordreSortieSommet`)
are const members embedded as pure functions of the state, so they can
modify nothing in any case. -/
theorem mutateurs_echec_sans_effet {T : Type} (g : Graphe T) (s t : Nat) (x : T) :
    (∀ e, (g.nommer s x).1 = Except.error e → (g.nommer s x).2 = g) ∧
    (∀ e, (g.ajouterArc s t).1 = Except.error e → (g.ajouterArc s t).2 = g) ∧
    (∀ e, (g.enleverArc s t).1 = Except.error e → (g.enleverArc s t).2 = g) := by
  refine ⟨fun e he => ?_, fun e he => ?_, fun e he => ?_⟩
  · unfold Graphe.nommer at he ⊢
    split
    · rfl
    next h1 =>
      rw [if_neg h1] at he
      exact absurd he (by simp)
  · unfold Graphe.ajouterArc at he ⊢
    split
    · rfl
    next h1 =>
      split
      · rfl
      next h2 =>
        split
        · rfl
        next h3 =>
          rw [if_neg h1, if_neg h2, if_neg h3] at he
          exact absurd he (by simp)
  · unfold Graphe.enleverArc at he ⊢
    split
    · rfl
    next h1 =>
      split
      · rfl
      next h2 =>
        split
        · rfl
        next h3 =>
          rw [if_neg h1, if_neg h2, if_neg h3] at he
          exact absurd he (by simp)

/-- Witness for C2 at the graph of two vertices with no arc: vertex 5
is out of range for all three mutators, and the state is returned
unchanged. -/
theorem mutateurs_echec_sans_effet_temoin :
    (Graphe.nommer (Graphe.construct Nat 2) 5 7).2 = Graphe.construct Nat 2 ∧
    (Graphe.ajouterArc (Graphe.construct Nat 2) 5 0).2 = Graphe.construct Nat 2 ∧
    (Graphe.enleverArc (Graphe.construct Nat 2) 5 0).2 = Graphe.construct Nat 2 :=
  ⟨(mutateurs_echec_sans_effet (Graphe.construct Nat 2) 5 0 7).1
      GErreur.invalidVertex rfl,
   (mutateurs_echec_sans_effet (Graphe.construct Nat 2) 5 0 7).2.1
      GErreur.invalidVertex rfl,
   (mutateurs_echec_sans_effet (Graphe.construct Nat 2) 5 0 7).2.2
      GErreur.invalidVertex rfl⟩

/-- C3.  Every operation taking a vertex id, `enleverArc` included,
fails with `InvalidVertex` when given an id at or above the vertex
count, in either argument position. -/
theorem operations_id_invalide {T : Type} [Inhabited T] (g : Graphe T)
    (s t : Nat) (x : T) (h : g.m_nbSommets ≤ s) :
    (g.nommer s x).1 = Except.error GErreur.invalidVertex ∧
    g.reqNom s = Except.error GErreur.invalidVertex ∧
    g.arcExiste s t = Except.error GErreur.invalidVertex ∧
    g.arcExiste t s = Except.error GErreur.invalidVertex ∧
    (g.ajouterArc s t).1 = Except.error GErreur.invalidVertex ∧
    (g.ajouterArc t s).1 = Except.error GErreur.invalidVertex ∧
    (g.enleverArc s t).1 = Except.error GErreur.invalidVertex ∧
    (g.enleverArc t s).1 = Except.error GErreur.invalidVertex ∧
    g.listerSommetsAdjacents s = Except.error GErreur.invalidVertex ∧
    g.ordreEntreeSommet s = Except.error GErreur.invalidVertex ∧
    g.ordreSortieSommet s = Except.error GErreur.invalidVertex := by
  by_cases ht : g.m_nbSommets ≤ t
  all_goals
    refine ⟨?_, ?_, ?_, ?_, ?_, ?_, ?_, ?_, ?_, ?_, ?_⟩ <;>
      simp [Graphe.nommer, Graphe.reqNom, Graphe.arcExiste, Graphe.ajouterArc,
        Graphe.enleverArc, Graphe.listerSommetsAdjacents, Graphe.ordreEntreeSommet,
        Graphe.ordreSortieSommet, h, ht]

/-- Witness for C3: naming vertex 5 of a two-vertex graph fails with
`InvalidVertex`. -/
theorem operations_id_invalide_temoin :
    ((Graphe.construct Nat 2).nommer 5 3).1 = Except.error GErreur.invalidVertex :=
  (operations_id_invalide (Graphe.construct Nat 2) 5 0 3 (by decide)).1

/-- C4.  Adding an arc that already exists fails with `DuplicateEdge`
and leaves every adjacency list (indeed the whole state) unchanged. -/
theorem ajouterArc_arc_duplique {T : Type} (g : Graphe T) (a b : Nat)
    (hex : g.arcExiste a b = Except.ok true) :
    (g.ajouterArc a b).1 = Except.error GErreur.duplicateEdge ∧
    (g.ajouterArc a b).2 = g := by
  unfold Graphe.arcExiste at hex
  by_cases h1 : a ≥ g.m_nbSommets
  · rw [if_pos h1] at hex
    exact absurd hex (by simp)
  · by_cases h2 : b ≥ g.m_nbSommets
    · rw [if_neg h1, if_pos h2] at hex
      exact absurd hex (by simp)
    · rw [if_neg h1, if_neg h2] at hex
      injection hex with hc
      unfold Graphe.ajouterArc
      rw [if_neg h1, if_neg h2, if_pos hc]
      exact ⟨rfl, rfl⟩

/-- Witness for C4: the example graph already holds the arc (0,1). -/
theorem ajouterArc_arc_duplique_temoin :
    (grapheExemple.ajouterArc 0 1).1 = Except.error GErreur.duplicateEdge ∧
    (grapheExemple.ajouterArc 0 1).2 = grapheExemple :=
  ajouterArc_arc_duplique grapheExemple 0 1 (by rfl)

/-- C7.  For every graph state and every vertex id, valid or not,
`ordreSortieSommet` returns exactly the length of the sequence
returned by `listerSommetsAdjacents` (and the two fail together on an
out-of-range id). -/
theorem ordreSortie_eq_longueur_adjacents {T : Type} (g : Graphe T) (v : Nat) :
    g.ordreSortieSommet v = (g.listerSommetsAdjacents v).map List.length := by
  unfold Graphe.ordreSortieSommet Graphe.listerSommetsAdjacents
  split <;> rfl

/-- C1.  On the graph with 4 vertices and the arcs (0,1), (1,2) and
(2,3), the depth-first traversal modelled from the spec, started at
vertex 0, returns exactly [0, 1, 2, 3], each reachable vertex visited
once in depth-first order.  The source body of
`Graphe<T>::parcoursProfondeur` is empty, so this settles the
spec-side of the claim against the modelled algorithm. -/
theorem parcoursProfondeur_grapheExemple :
    grapheExemple.parcoursProfondeur 0 = Except.ok [0, 1, 2, 3] := by
  rfl

/-- C6.  Naming a valid vertex and then asking its name returns the
name just given. -/
theorem nommer_puis_reqNom {T : Type} [Inhabited T] (g : Graphe T)
    (v : Nat) (x : T) (hinv : g.invariantOk) (hv : v < g.m_nbSommets) :
    (g.nommer v x).2.reqNom v = Except.ok x := by
  have hv' : ¬ v ≥ g.m_nbSommets := by omega
  have hlen : v < g.m_noms.length := by
    rw [hinv.1]
    exact hv
  simp [Graphe.nommer, Graphe.reqNom, hv', List.getElem?_set_self, hlen]

/-- Witness for C6 on a concrete two-vertex graph. -/
theorem nommer_puis_reqNom_temoin :
    ((Graphe.construct Nat 2).nommer 1 9).2.reqNom 1 = Except.ok 9 :=
  nommer_puis_reqNom (Graphe.construct Nat 2) 1 9 ⟨rfl, rfl⟩ (by decide)

/-- C9.  A successful `nommer` changes only the label of the named
vertex: the vertex count, every adjacency list, and the label of every
other vertex are identical before and after the call. -/
theorem nommer_effet_local {T : Type} [Inhabited T] (g : Graphe T)
    (v : Nat) (x : T) (hv : v < g.m_nbSommets) :
    (g.nommer v x).1 = Except.ok () ∧
    (g.nommer v x).2.m_nbSommets = g.m_nbSommets ∧
    (g.nommer v x).2.m_listesAdj = g.m_listesAdj ∧
    ∀ w, w ≠ v → (g.nommer v x).2.reqNom w = g.reqNom w := by
  have hv' : ¬ v ≥ g.m_nbSommets := by omega
  unfold Graphe.nommer
  rw [if_neg hv']
  refine ⟨rfl, rfl, rfl, fun w hw => ?_⟩
  unfold Graphe.reqNom
  by_cases hw2 : w ≥ g.m_nbSommets
  · simp [hw2]
  · simp [hw2, List.getElem?_set_ne, hw.symm]

/-- Witness for C9 on a concrete two-vertex graph: naming vertex 0
leaves the name of vertex 1 unchanged. -/
theorem nommer_effet_local_temoin :
    ((Graphe.construct Nat 2).nommer 0 5).2.reqNom 1 =
      (Graphe.construct Nat 2).reqNom 1 :=
  (nommer_effet_local (Graphe.construct Nat 2) 0 5 (by decide)).2.2.2 1 (by decide)

/-- C5.  When the arc (a,b) is absent, `ajouterArc` succeeds and makes
`arcExiste` answer true; a subsequent `enleverArc` succeeds and makes
`arcExiste` answer false again. -/
theorem ajouterArc_puis_enleverArc {T : Type} (g : Graphe T) (a b : Nat)
    (hinv : g.invariantOk) (habs : g.arcExiste a b = Except.ok false) :
    (g.ajouterArc a b).1 = Except.ok () ∧
    (g.ajouterArc a b).2.arcExiste a b = Except.ok true ∧
    ((g.ajouterArc a b).2.enleverArc a b).1 = Except.ok () ∧
    ((g.ajouterArc a b).2.enleverArc a b).2.arcExiste a b = Except.ok false := by
  unfold Graphe.arcExiste at habs
  by_cases h1 : a ≥ g.m_nbSommets
  · rw [if_pos h1] at habs
    exact absurd habs (by simp)
  by_cases h2 : b ≥ g.m_nbSommets
  · rw [if_neg h1, if_pos h2] at habs
    exact absurd habs (by simp)
  rw [if_neg h1, if_neg h2] at habs
  injection habs with hc
  have hmem : b ∉ g.m_listesAdj.getD a [] := by
    simpa using hc
  have hlen : a < g.m_listesAdj.length := by
    rw [hinv.2]
    omega
  have hgetd : g.m_listesAdj.getD a [] = g.m_listesAdj[a] := by
    simp [List.getD_eq_getElem?_getD, List.getElem?_eq_getElem hlen]
  have hmem2 : b ∉ g.m_listesAdj[a] := hgetd ▸ hmem
  have hmem3 : b ∉ g.m_listesAdj[a]?.getD [] := by
    rw [List.getElem?_eq_getElem hlen]
    exact hmem2
  refine ⟨?_, ?_, ?_, ?_⟩
  · simp [Graphe.ajouterArc, h1, h2, hmem, hmem2, hmem3]
  · simp [Graphe.ajouterArc, Graphe.arcExiste, h1, h2, hmem, hmem2, hmem3,
      List.getElem?_set_self, hlen]
  · simp [Graphe.ajouterArc, Graphe.enleverArc, h1, h2, hmem, hmem2, hmem3,
      List.getElem?_set_self, hlen]
  · simp [Graphe.ajouterArc, Graphe.enleverArc, Graphe.arcExiste, h1, h2,
      hmem, hmem2, hmem3, List.getElem?_set_self, hlen, List.set_set,
      List.erase_append]

/-- Witness for C5 on the two-vertex graph with no arc. -/
theorem ajouterArc_puis_enleverArc_temoin :
    (((Graphe.construct Nat 2).ajouterArc 0 1).2.enleverArc 0 1).2.arcExiste 0 1 =
      Except.ok false :=
  (ajouterArc_puis_enleverArc (Graphe.construct Nat 2) 0 1 ⟨rfl, rfl⟩ (by rfl)).2.2.2

/-- Every accessible graph state satisfies the class invariant of
`verifieInvariant` and stores only valid vertex ids in its adjacency
lists. -/
lemma accessible_wf {T : Type} [Inhabited T] {g : Graphe T}
    (h : Accessible g) : g.invariantOk ∧ g.arcsValides := by
  induction h with
  | construct n =>
    refine ⟨⟨by simp [Graphe.construct], by simp [Graphe.construct]⟩, ?_⟩
    intro i x hx
    simp [Graphe.construct, List.getD_eq_getElem?_getD] at hx
  | nommer s x hg ih =>
    rename_i g
    unfold Graphe.nommer
    by_cases h1 : s ≥ g.m_nbSommets
    · rw [if_pos h1]
      exact ih
    · rw [if_neg h1]
      exact ⟨⟨by simpa using ih.1.1, ih.1.2⟩, ih.2⟩
  | ajouterArc s t hg ih =>
    rename_i g
    unfold Graphe.ajouterArc
    by_cases h1 : s ≥ g.m_nbSommets
    · rw [if_pos h1]
      exact ih
    by_cases h2 : t ≥ g.m_nbSommets
    · rw [if_neg h1, if_pos h2]
      exact ih
    by_cases h3 : (g.m_listesAdj.getD s []).contains t = true
    · rw [if_neg h1, if_neg h2, if_pos h3]
      exact ih
    rw [if_neg h1, if_neg h2, if_neg h3]
    refine ⟨⟨ih.1.1, by simpa using ih.1.2⟩, ?_⟩
    intro i x hx
    show x < g.m_nbSommets
    by_cases hia : i = s
    · subst hia
      have hlen : i < g.m_listesAdj.length := by
        rw [ih.1.2]
        omega
      rw [Graphe.getD_set_self _ _ hlen] at hx
      rcases List.mem_append.mp hx with hL | hb
      · exact ih.2 i x hL
      · have hxt : x = t := by simpa using hb
        subst hxt
        omega
    · rw [Graphe.getD_set_ne _ (fun he => hia he.symm)] at hx
      exact ih.2 i x hx
  | enleverArc s t hg ih =>
    rename_i g
    unfold Graphe.enleverArc
    by_cases h1 : s ≥ g.m_nbSommets
    · rw [if_pos h1]
      exact ih
    by_cases h2 : t ≥ g.m_nbSommets
    · rw [if_neg h1, if_pos h2]
      exact ih
    by_cases h3 : (g.m_listesAdj.getD s []).contains t = true
    · have hmemt : t ∈ g.m_listesAdj[s]?.getD [] := by
        simpa using h3
      rw [if_neg h1, if_neg h2, if_neg (by simp [hmemt])]
      refine ⟨⟨ih.1.1, by simpa using ih.1.2⟩, ?_⟩
      intro i x hx
      show x < g.m_nbSommets
      by_cases hia : i = s
      · subst hia
        have hlen : i < g.m_listesAdj.length := by
          rw [ih.1.2]
          omega
        rw [Graphe.getD_set_self _ _ hlen] at hx
        exact ih.2 i x (List.mem_of_mem_erase hx)
      · rw [Graphe.getD_set_ne _ (fun he => hia he.symm)] at hx
        exact ih.2 i x hx
    · have h3f : (g.m_listesAdj.getD s []).contains t = false := by
        revert h3
        cases (g.m_listesAdj.getD s []).contains t <;> simp
      have hnot : t ∉ g.m_listesAdj[s]?.getD [] := by
        simpa using h3f
      rw [if_neg h1, if_neg h2, if_pos (by simp [hnot])]
      exact ih

/-- C10.  In every graph state accessible through the operations, every
id stored in any adjacency list is strictly below the vertex count. -/
theorem arcs_toujours_valides {T : Type} [Inhabited T] (g : Graphe T)
    (hacc : Accessible g) : g.arcsValides :=
  (accessible_wf hacc).2

/-- The example graph is accessible through the embedded operations. -/
lemma accessible_grapheExemple : Accessible grapheExemple :=
  Accessible.ajouterArc 2 3
    (Accessible.ajouterArc 1 2
      (Accessible.ajouterArc 0 1 (Accessible.construct 4)))

/-- Witness for C10: the target 1 stored in the adjacency list of
vertex 0 of the example graph is a valid vertex id. -/
theorem arcs_toujours_valides_temoin : 1 < grapheExemple.m_nbSommets :=
  arcs_toujours_valides grapheExemple accessible_grapheExemple 0 1 (by decide)

lemma listSum_range (n : Nat) (f : Nat → Nat) :
    ((List.range n).map f).sum = ∑ i in Finset.range n, f i := by
  induction n with
  | zero => simp
  | succ n ih => simp [List.range_succ, Finset.sum_range_succ, ih]

lemma finset_sum_count (n : Nat) (L : List Nat) (h : ∀ x ∈ L, x < n) :
    ∑ s in Finset.range n, L.count s = L.length := by
  induction L with
  | nil => simp
  | cons x xs ih =>
    have hx : x < n := h x (List.mem_cons_self x xs)
    have hxs : ∀ y ∈ xs, y < n := fun y hy => h y (List.mem_cons_of_mem x hy)
    simp only [List.count_cons, List.length_cons]
    rw [Finset.sum_add_distrib, ih hxs]
    simp [Finset.sum_ite_eq, Finset.sum_ite_eq', Finset.mem_range, hx]

lemma map_range_getD {α : Type} (l : List α) (d : α) :
    (List.range l.length).map (fun i => l.getD i d) = l := by
  apply List.ext_getElem
  · simp
  · intro i h1 h2
    simp [List.getD_eq_getElem?_getD, List.getElem?_eq_getElem h2]

/-- C8.  In every accessible graph state, the sum of `ordreSortieSommet`
over all valid vertex ids equals the sum of `ordreEntreeSommet` over
all valid vertex ids, and both equal the total number of arcs. -/
theorem somme_sorties_eq_somme_entrees {T : Type} [Inhabited T]
    (g : Graphe T) (hacc : Accessible g) :
    g.sommeOrdresSortie = g.sommeOrdresEntree ∧
    g.sommeOrdresSortie = g.nbArcs := by
  obtain ⟨⟨hnoms, hadj⟩, hval⟩ := accessible_wf hacc
  constructor
  · unfold Graphe.sommeOrdresSortie Graphe.sommeOrdresEntree
      Graphe.compteArcsEntrants
    rw [listSum_range, listSum_range]
    have hconv : ∀ v, ((List.range g.m_nbSommets).map
        (fun i => (g.m_listesAdj.getD i []).count v)).sum
        = ∑ i in Finset.range g.m_nbSommets, (g.m_listesAdj.getD i []).count v :=
      fun v => listSum_range _ _
    simp only [hconv]
    rw [Finset.sum_comm]
    apply Finset.sum_congr rfl
    intro i hi
    exact (finset_sum_count _ _ (fun x hx => hval i x hx)).symm
  · unfold Graphe.sommeOrdresSortie Graphe.nbArcs
    have h1 : (List.range g.m_nbSommets).map
        (fun v => (g.m_listesAdj.getD v []).length)
        = g.m_listesAdj.map List.length := by
      rw [← hadj]
      rw [show (fun v => (g.m_listesAdj.getD v []).length)
        = List.length ∘ (fun v => g.m_listesAdj.getD v []) from rfl]
      rw [← List.map_map]
      rw [map_range_getD]
    rw [h1]

/-- Witness for C8 on the example graph: both degree sums equal its
three arcs. -/
theorem somme_sorties_eq_somme_entrees_temoin :
    grapheExemple.sommeOrdresSortie = grapheExemple.sommeOrdresEntree ∧
    grapheExemple.sommeOrdresSortie = grapheExemple.nbArcs :=
  somme_sorties_eq_somme_entrees grapheExemple accessible_grapheExemple

end LabGrapheAlgorithmes
